import Mathlib

-- Verification of pyFileIntegrityChecker (src/main.py) against its specification.
-- The scan engine `FileReadWorker.run` is embedded as a fueled deterministic
-- function over an oracle environment (read lengths, wall-clock elapsed times
-- per read, and the polled stop-event schedule).  Times and speeds are exact
-- rationals; Python's `float('inf')` is a dedicated constructor.  Python locals
-- of `run` that persist across loop iterations and across files
-- (`data`, `speed_val`, `sleep_duration`) are Option-valued persistent state:
-- `none` models an unbound name, and reading it raises `NameError`.

namespace PFIC

/-- A Python float that is either a finite rational or `float('inf')`. -/
inductive Qi where
  | fin (q : ℚ)
  | inf
  deriving DecidableEq, Repr

/-- Python `min` over speed values (line 122 / line 142 of main.py). -/
def Qi.qmin : Qi → Qi → Qi
  | .inf, y => y
  | .fin a, .inf => .fin a
  | .fin a, .fin b => .fin (min a b)

/-- Python `<` of a speed value against a finite threshold: `inf < t` is false. -/
def Qi.ltB : Qi → ℚ → Bool
  | .inf, _ => false
  | .fin a, t => decide (a < t)

/-- Python `<=` between speed values. -/
def Qi.leB : Qi → Qi → Bool
  | _, .inf => true
  | .inf, .fin _ => false
  | .fin a, .fin b => decide (a ≤ b)

/-- Observable actions of the scan thread: emitted Qt signals, plus the raw
`f.read` calls and `time.sleep` calls, plus a ghost marker `chunkEv` recording
each chunk-metric computation (lines 107-112 of main.py). -/
inductive Ev where
  | readEv (pos n : ℕ)
  | sleepEv (d : ℚ)
  | chunkEv (bytes : ℕ) (s : Qi)
  | progress (path : String) (pct : ℕ)
  | curSpeed (path : String) (s : Qi)
  | minSpeed (path : String) (s : Qi)
  | maxWait (path : String) (w : ℚ)
  | verdict (path : String) (ok : Bool)
  | finishedAll
  deriving DecidableEq, Repr

/-- Python exceptions that can arise in `FileReadWorker.run`. -/
inductive PyErr where
  | nameError
  | osError
  deriving DecidableEq, Repr

/-- `SUB_CHUNK_SIZE = 64 * 1024` (line 46). -/
def SUB_CHUNK_SIZE : ℕ := 65536

/-- `GUI_UPDATE_INTERVAL_S = 0.2` (line 49). -/
def GUI_UPDATE_INTERVAL_S : ℚ := mkRat 1 5

/-- `MIN_SPEED_MB_S = 0.1` (line 35). -/
def MIN_SPEED_MB_S : ℚ := mkRat 1 10

/-- One megabyte, `1024 * 1024`. -/
def MB : ℕ := 1048576

/-- State that persists for the whole `run()` call: the function-scoped locals
`data` (length of the last string returned by `f.read`), `speed_val` and
`sleep_duration` (all three leak across chunks and across files; `none` means
the name is still unbound), the wall clock, and counters indexing the read
and stop-poll oracles. -/
structure WSt where
  dataLen : Option ℕ
  speedVal : Option Qi
  sleepDur : Option ℚ
  now : ℚ
  rIdx : ℕ
  pIdx : ℕ
  deriving DecidableEq, Repr

/-- Fresh worker state at clock time `t0`: no local is bound yet. -/
def WSt.init (t0 : ℚ) : WSt :=
  ⟨none, none, none, t0, 0, 0⟩

/-- Oracle environment of one `run()` call: the worker configuration
(`self.chunk_size`, `self.speed_limit`) plus the behaviour of the outside
world, indexed by occurrence: `readLen k` bytes actually returned by the k-th
`f.read` call (clamped to the requested amount), `readErr k` whether that call
raises `OSError`, `elapsed k` its wall-clock duration, and `stop k` the result
of the k-th `stop_event.is_set()` poll. -/
structure Env where
  chunkSize : ℕ
  speedLimit : ℚ
  readLen : ℕ → ℕ
  readErr : ℕ → Bool
  elapsed : ℕ → ℚ
  stop : ℕ → Bool

/-- One entry of `self.tasks`: the path, the resume offset `start`, and the
file's behaviour: `statSize = none` models `path.stat()` raising, `openOk`
whether `open(path, 'rb')` succeeds. -/
structure Task where
  path : String
  start : ℕ
  statSize : Option ℕ
  openOk : Bool

/-- How the inner sub-chunk loop (lines 79-102) was left. -/
inductive SubExit where
  | normal
  | stopBrk
  | eofBrk
  | errBrk
  | fuelOut
  deriving DecidableEq, Repr

/-- Result of the inner sub-chunk loop. -/
structure SubOut where
  evs : List Ev
  st : WSt
  readPos : ℕ
  brc : ℕ
  ex : SubExit
  deriving DecidableEq, Repr

/-- The inner sub-chunk loop, lines 79-102 of main.py.  `readPos` is the local
`read`, `brc` is `bytes_read_in_chunk`.  Each iteration polls the stop event,
computes `bytes_to_read`, reads (advancing the clock by the oracle's elapsed
time), breaks on an empty read, then sleeps `max 0 (target - elapsed)` to
throttle.  Structural fuel bounds the recursion; `fuelOut` is unreachable for
fuel larger than the remaining file length. -/
def subLoop (env : Env) (fileSize : ℕ) : ℕ → WSt → ℕ → ℕ → SubOut
  | 0, st, readPos, brc => ⟨[], st, readPos, brc, .fuelOut⟩
  | fuel + 1, st, readPos, brc =>
    if brc < env.chunkSize ∧ readPos < fileSize then
      if env.stop st.pIdx then
        ⟨[], { st with pIdx := st.pIdx + 1 }, readPos, brc, .stopBrk⟩
      else
        let st1 := { st with pIdx := st.pIdx + 1 }
        let btr := min SUB_CHUNK_SIZE (min (env.chunkSize - brc) (fileSize - readPos))
        let target : ℚ := mkRat btr MB / env.speedLimit
        if env.readErr st1.rIdx then
          ⟨[], { st1 with rIdx := st1.rIdx + 1 }, readPos, brc, .errBrk⟩
        else
          let len := min (env.readLen st1.rIdx) btr
          let e := env.elapsed st1.rIdx
          let st2 := { st1 with rIdx := st1.rIdx + 1, now := st1.now + e, dataLen := some len }
          if len = 0 then
            ⟨[Ev.readEv readPos 0], st2, readPos, brc, .eofBrk⟩
          else
            let sd := max 0 (target - e)
            let st3 := { st2 with sleepDur := some sd, now := st2.now + sd }
            let rest := subLoop env fileSize fuel st3 (readPos + len) (brc + len)
            ⟨Ev.readEv readPos len :: Ev.sleepEv sd :: rest.evs, rest.st, rest.readPos,
              rest.brc, rest.ex⟩
    else ⟨[], st, readPos, brc, .normal⟩

/-- How one body of the outer `while read < file_size` loop ended the file. -/
inductive OutExit where
  | completedEx
  | stopEx
  | dataBrk
  | underspeed
  | nameErr
  | ioErr
  | fuelOut
  | noLoop
  deriving DecidableEq, Repr

/-- Result of one outer-loop body: `halt` leaves the outer loop with the given
exit, `cont` goes to the next iteration. -/
inductive IterRes where
  | halt (evs : List Ev) (st : WSt) (readPos : ℕ) (minS : Qi) (maxW : ℚ) (ex : OutExit)
  | cont (evs : List Ev) (st : WSt) (readPos : ℕ) (minS : Qi) (maxW : ℚ) (lastGui : ℚ)
  deriving DecidableEq, Repr

/-- Lines 108-112 of main.py: the chunk's realized throughput,
`float('inf')` when the wall time was zero. -/
def speedOf (brc : ℕ) (ctt : ℚ) : Qi :=
  if ctt = 0 then .inf else .fin (mkRat brc MB / ctt)

/-- One body of the outer chunk loop, lines 75-131 of main.py (entered with the
stop poll of line 72 already passed): run the sub-chunk loop, then the
`if not data: break` of line 104 (`NameError` when `data` is unbound), then the
chunk metrics (lines 107-112), the full-chunk under-speed check (lines
114-117), and the rate-limited GUI update (lines 119-131, which is where
`min_speed_val` / `max_wait_val` are folded; `sleep_duration` unbound at line
123 raises `NameError`). -/
def chunkIter (env : Env) (fileSize : ℕ) (path : String) (st : WSt) (readPos : ℕ)
    (minS : Qi) (maxW lastGui : ℚ) : IterRes :=
  let chunkStart := st.now
  let sub := subLoop env fileSize (fileSize + 1) st readPos 0
  if sub.ex = .errBrk then .halt sub.evs sub.st sub.readPos minS maxW .ioErr
  else if sub.ex = .fuelOut then .halt sub.evs sub.st sub.readPos minS maxW .fuelOut
  else
    match sub.st.dataLen with
    | none => .halt sub.evs sub.st sub.readPos minS maxW .nameErr
    | some 0 => .halt sub.evs sub.st sub.readPos minS maxW .dataBrk
    | some (_ + 1) =>
      let sv : Qi := speedOf sub.brc (sub.st.now - chunkStart)
      let st3 := { sub.st with speedVal := some sv }
      let evs1 := sub.evs ++ [Ev.chunkEv sub.brc sv]
      if sub.brc = env.chunkSize ∧ Qi.ltB sv MIN_SPEED_MB_S = true then
        .halt (evs1 ++ [Ev.verdict path false]) st3 sub.readPos minS maxW .underspeed
      else
        if st3.now - lastGui > GUI_UPDATE_INTERVAL_S then
          let minS1 := Qi.qmin minS sv
          match st3.sleepDur with
          | none => .halt evs1 st3 sub.readPos minS1 maxW .nameErr
          | some sd =>
            let maxW1 := max maxW sd
            let pct := sub.readPos * 100 / fileSize
            .cont (evs1 ++ [Ev.curSpeed path sv, Ev.progress path pct,
                Ev.minSpeed path minS1, Ev.maxWait path maxW1]) st3 sub.readPos minS1 maxW1
              st3.now
        else .cont evs1 st3 sub.readPos minS maxW lastGui

/-- Result of the outer chunk loop over one file. -/
structure LoopOut where
  evs : List Ev
  st : WSt
  readPos : ℕ
  minS : Qi
  maxW : ℚ
  ex : OutExit
  deriving DecidableEq, Repr

/-- The outer `while read < file_size` loop of lines 71-135: when the condition
fails without a break the Python `while/else` sets `completed = True`, which is
the `completedEx` exit here. -/
def outerLoop (env : Env) (fileSize : ℕ) (path : String) :
    ℕ → WSt → ℕ → Qi → ℚ → ℚ → LoopOut
  | 0, st, readPos, minS, maxW, _ => ⟨[], st, readPos, minS, maxW, .fuelOut⟩
  | fuel + 1, st, readPos, minS, maxW, lastGui =>
    if readPos < fileSize then
      if env.stop st.pIdx then
        ⟨[], { st with pIdx := st.pIdx + 1 }, readPos, minS, maxW, .stopEx⟩
      else
        match chunkIter env fileSize path { st with pIdx := st.pIdx + 1 } readPos minS maxW
            lastGui with
        | .halt evs st2 r2 m2 w2 ex => ⟨evs, st2, r2, m2, w2, ex⟩
        | .cont evs st2 r2 m2 w2 lg2 =>
          let rest := outerLoop env fileSize path fuel st2 r2 m2 w2 lg2
          ⟨evs ++ rest.evs, rest.st, rest.readPos, rest.minS, rest.maxW, rest.ex⟩
    else ⟨[], st, readPos, minS, maxW, .completedEx⟩

/-- Result of processing one file (one iteration of the `for path, start in
self.tasks` loop body, lines 55-153, excluding the `except` handler): the
emitted events, the Python exception that escaped to the handler (if any), the
persistent locals, the loop exit, and the file's final `min_speed_val` /
`max_wait_val`. -/
structure FOut where
  events : List Ev
  err : Option PyErr
  st : WSt
  ex : OutExit
  minS : Qi
  maxW : ℚ
  deriving Repr

/-- Lines 55-149 of main.py for a single task: stat (possibly raising), the
zero-length shortcut (lines 57-60: verdict OK then progress 100, no read), the
open, the outer loop, and on `completed` the final-update block of lines
137-149, whose reads of `speed_val` (line 141) and `sleep_duration` (line 143)
raise `NameError` when those locals were never assigned during this run. -/
def processFile (env : Env) (fuel : ℕ) (t : Task) (st : WSt) : FOut :=
  match t.statSize with
  | none => ⟨[], some .osError, st, .noLoop, .inf, 0⟩
  | some fileSize =>
    if fileSize = 0 then
      ⟨[Ev.verdict t.path true, Ev.progress t.path 100], none, st, .noLoop, .inf, 0⟩
    else if t.openOk then
      let lo := outerLoop env fileSize t.path fuel st t.start .inf 0 st.now
      match lo.ex with
      | .completedEx =>
        match lo.st.speedVal with
        | none => ⟨lo.evs, some .nameError, lo.st, .completedEx, lo.minS, lo.maxW⟩
        | some fsv =>
          match lo.st.sleepDur with
          | none => ⟨lo.evs, some .nameError, lo.st, .completedEx, lo.minS, lo.maxW⟩
          | some sd =>
            ⟨lo.evs ++ [Ev.progress t.path 100, Ev.curSpeed t.path fsv,
                Ev.minSpeed t.path (Qi.qmin lo.minS fsv), Ev.maxWait t.path (max lo.maxW sd),
                Ev.verdict t.path true],
              none, lo.st, .completedEx, lo.minS, lo.maxW⟩
      | .nameErr => ⟨lo.evs, some .nameError, lo.st, .nameErr, lo.minS, lo.maxW⟩
      | .ioErr => ⟨lo.evs, some .osError, lo.st, .ioErr, lo.minS, lo.maxW⟩
      | ex => ⟨lo.evs, none, lo.st, ex, lo.minS, lo.maxW⟩
    else ⟨[], some .osError, st, .noLoop, .inf, 0⟩

/-- Result of a whole `run()` call. -/
structure ROut where
  events : List Ev
  st : WSt
  deriving Repr

/-- `FileReadWorker.run`, lines 44-155: iterate the tasks, polling the stop
event before each file (line 52); the per-file `try/except` (lines 55-153)
converts any escaped exception into a BAD verdict for that file and moves on;
`finished_all` is emitted at the end (line 155), also after a stop break. -/
def runWorker (env : Env) (fuel : ℕ) : List Task → WSt → ROut
  | [], st => ⟨[Ev.finishedAll], st⟩
  | t :: rest, st =>
    if env.stop st.pIdx then ⟨[Ev.finishedAll], { st with pIdx := st.pIdx + 1 }⟩
    else
      let out := processFile env fuel t { st with pIdx := st.pIdx + 1 }
      let badE : List Ev := match out.err with
        | some _ => [Ev.verdict t.path false]
        | none => []
      let r := runWorker env fuel rest out.st
      ⟨out.events ++ badE ++ r.events, r.st⟩

/-- Invariant of the leaked locals: whenever `data` is bound and nonempty,
`sleep_duration` is bound (every nonempty read at line 91 is followed by the
assignment of `sleep_duration` at line 98). -/
def goodB (st : WSt) : Bool :=
  match st.dataLen with
  | some (_ + 1) => st.sleepDur.isSome
  | _ => true

/-- An event that is neither a verdict nor a below-floor full-chunk metric
marker.  Used to state what a trace without an under-speed abort looks like. -/
def benignB (cs : ℕ) : Ev → Bool
  | .chunkEv b s => !(decide (b = cs) && Qi.ltB s MIN_SPEED_MB_S)
  | .verdict _ _ => false
  | _ => true

/-- An event produced directly by the sub-chunk loop: a raw read or a sleep. -/
def Ev.isRW : Ev → Bool
  | .readEv _ _ => true
  | .sleepEv _ => true
  | _ => false

-- ---------------------------------------------------------------------------
-- GUI-side state: the catalog records, start_scan's queue, and persistence.
-- ---------------------------------------------------------------------------

/-- One value of the `self.data` map (lines 307-314 / 386-387 of main.py). -/
structure FRec where
  size : ℕ
  progress : ℕ
  cur_speed : ℚ
  min_speed : Option ℚ
  max_wait : Option ℚ
  verdict : String
  deriving DecidableEq, Repr

/-- Fueled floor of `log2 n` (`0` for `n ≤ 1`); `nlog2F n n` performs at most
`log2 n` real steps, so fuel `n` always suffices. -/
def nlog2F : ℕ → ℕ → ℕ
  | 0, _ => 0
  | fuel + 1, n => if n ≤ 1 then 0 else nlog2F fuel (n / 2) + 1

/-- Floor of the base-2 logarithm of `n` (and `0` for `n = 0`). -/
def nlog2 (n : ℕ) : ℕ := nlog2F n n

/-- Fueled search for the least `s` with `a * 2 ^ s ≥ b` (for `a ≥ 1`); fuel
`b` always suffices since `a` at least doubles each step. -/
def upF : ℕ → ℕ → ℕ → ℕ
  | 0, _, _ => 0
  | fuel + 1, a, b => if b ≤ a then 0 else upF fuel (2 * a) b + 1

/-- Round the positive rational `a / b` (with `a, b ≥ 1`) to an IEEE-754
binary64 significand: the nearest value `m * 2 ^ e` with `2 ^ 52 ≤ m < 2 ^ 53`
(ties to even `m`), returned as the pair `(m, e)`.  `k` is the floor of
`log2 (a / b)`, so the scaled quotient `na / nb` lies in `[2 ^ 52, 2 ^ 53)`;
rounding compares twice the remainder with the divisor.  Exponent underflow
and overflow (values below `2 ^ (-1022)` or at and above `2 ^ 1024`) are not
modelled; the inputs fed by `startBytes` never reach them. -/
def roundSig (a b : ℕ) : ℕ × ℤ :=
  let k : ℤ := if b ≤ a then (nlog2 (a / b) : ℤ) else -(upF b a b : ℤ)
  let e : ℤ := k - 52
  let na := if 0 ≤ e then a else a * 2 ^ (-e).toNat
  let nb := if 0 ≤ e then b * 2 ^ e.toNat else b
  let n := na / nb
  let r := na % nb
  let m :=
    if 2 * r < nb then n
    else if nb < 2 * r then n + 1
    else if n % 2 = 0 then n else n + 1
  (m, e)

/-- `int(stats['progress'] / 100 * size)` of line 407, following CPython's
binary64 float arithmetic step by step: `progress / 100` is the correctly
rounded double of the exact quotient (`roundSig progress 100`), the `int`
operand `size` is converted to the nearest double (`roundSig size 1`),
their product is rounded once more (`roundSig` of the product of the two
53-bit significands), and `int(...)` truncates toward zero, which on this
nonnegative value is the floor — the final flooring division by `2 ^ (-e)`.
Each rounding is round-to-nearest, ties-to-even, on a 53-bit significand,
so the result can differ from the exact rational floor
`progress * size / 100`. -/
def startBytes (progress size : ℕ) : ℕ :=
  if progress = 0 ∨ size = 0 then 0
  else
    let q := roundSig progress 100
    let sF := roundSig size 1
    let pr := roundSig (q.1 * sF.1) 1
    let e := q.2 + sF.2 + pr.2
    if 0 ≤ e then pr.1 * 2 ^ e.toNat else pr.1 / 2 ^ (-e).toNat

/-- Queue building of `MainWindow.start_scan`, lines 402-408: iterate the
catalog in insertion order, skip records whose verdict is `'OK'`, and pair each
remaining path with its resume offset. -/
def start_scan_tasks : List (String × FRec) → List (String × ℕ)
  | [] => []
  | (p, r) :: rest =>
    if r.verdict = "OK" then start_scan_tasks rest
    else (p, startBytes r.progress r.size) :: start_scan_tasks rest

/-- Modelled from the spec: the queue contains exactly the records with
`verdict != OK`, in stable catalog order, each with resume offset
`int(progress/100 * size)`.  Stated with filter/map to compare with the code's
loop. -/
def specQueue (data : List (String × FRec)) : List (String × ℕ) :=
  (data.filter (fun x => x.2.verdict ≠ "OK")).map
    (fun x => (x.1, startBytes x.2.progress x.2.size))

/-- Python `str(...)` applied to the optional folder (line 503): `str(None)`
is the string `"None"`. -/
def folderStr : Option String → String
  | none => "None"
  | some s => s

/-- The persisted snapshot structure written by `MainWindow.save_data`,
lines 501-507: `{'folder': ..., 'speed_limit': ..., 'files': ...}`. -/
structure SavedState where
  folderS : String
  speed_limitS : ℕ
  filesS : List (String × FRec)
  deriving DecidableEq, Repr

/-- `MainWindow.save_data` (lines 501-507): serialize folder, speed limit and
the file map. -/
def save_data (folder : Option String) (speed : ℕ) (files : List (String × FRec)) :
    SavedState :=
  ⟨folderStr folder, speed, files⟩

/-- `QSlider.setValue` with `setRange(1, 100)` (lines 238-239, 516): Qt clamps
the stored value into the slider's range. -/
def sliderSet (v : ℕ) : ℕ :=
  max 1 (min v 100)

/-- The file-restoring loop of `MainWindow._load_data`, lines 526-539: entries
whose path no longer exists (`fs p = none`) are skipped; for the rest, `size`
is re-read from the filesystem oracle `fs` while `progress`, `cur_speed`,
`min_speed`, `max_wait` and `verdict` come from the saved record. -/
def load_files (fs : String → Option ℕ) : List (String × FRec) → List (String × FRec)
  | [] => []
  | (p, r) :: rest =>
    match fs p with
    | none => load_files fs rest
    | some sz => (p, { r with size := sz }) :: load_files fs rest

-- ---------------------------------------------------------------------------
-- Concrete scenarios used by witnesses and counterexamples.
-- All use a tiny logical chunk (`chunk_size_mb` chosen so that
-- `int(chunk_size_mb * 1024 * 1024) = 4`) to keep evaluation small; the chunk
-- is still composed of sub-chunk reads exactly as in the source.
-- ---------------------------------------------------------------------------

/-- Benign device, 1 second per read: a 4-byte full chunk takes 1 s, i.e.
4/2^20 MB/s, far below the 0.1 MB/s floor. -/
def envA : Env :=
  ⟨4, mkRat 10 1, fun _ => 4, fun _ => false, fun _ => mkRat 1 1, fun _ => false⟩

/-- Task for `envA`: an 8-byte file read from offset 0. -/
def tA : Task := ⟨"a", 0, some 8, true⟩

/-- Fast benign device: each read takes 2^-20 s, so a 4-byte chunk runs at
4 MB/s, and a whole file finishes well inside one GUI interval. -/
def envB : Env :=
  ⟨4, mkRat 10 1, fun _ => 4, fun _ => false, fun _ => mkRat 1 1048576, fun _ => false⟩

/-- Task for `envB`: a 4-byte file, one full chunk, completes. -/
def tB : Task := ⟨"b", 0, some 4, true⟩

/-- A second task whose resume offset already equals its size. -/
def tB2 : Task := ⟨"b2", 4, some 4, true⟩

/-- Fast device whose stop event becomes set from the third poll on
(set concurrently between the chunk-level poll and the sub-chunk poll). -/
def envC : Env :=
  ⟨4, mkRat 10 1, fun _ => 4, fun _ => false, fun _ => mkRat 1 1048576, fun i => decide (2 ≤ i)⟩

/-- Task for `envC`: a 4-byte file read from offset 0. -/
def tC : Task := ⟨"c", 0, some 4, true⟩

/-- Task for `envC` when driven directly through `processFile`: 8 bytes, so
the stop event is observed at the second chunk's between-chunks poll. -/
def tC2 : Task := ⟨"c2", 0, some 8, true⟩

/-- Fast device whose second and later reads return zero bytes: the file
shrank below its recorded size mid-scan. -/
def envF : Env :=
  ⟨4, mkRat 10 1, fun k => if k = 0 then 4 else 0, fun _ => false, fun _ => mkRat 1 1048576,
    fun _ => false⟩

/-- Task for `envF`: recorded size 12 bytes, truncated after 4. -/
def tF : Task := ⟨"f", 0, some 12, true⟩

/-- A task whose `stat` call raises (file vanished before the scan). -/
def tE : Task := ⟨"e", 0, none, true⟩

/-- A zero-length file. -/
def tG : Task := ⟨"g", 0, some 0, true⟩

/-- A first-in-run task whose resume offset equals its nonzero size. -/
def tZ : Task := ⟨"z", 4, some 4, true⟩

-- ---------------------------------------------------------------------------
-- List helpers.
-- ---------------------------------------------------------------------------

theorem lastOfCons {α : Type} (a : α) (l : List α) (h : l ≠ []) :
    (a :: l).getLast? = l.getLast? := by
  cases l with
  | nil => exact absurd rfl h
  | cons b t => rfl

theorem lastOfAppend {α : Type} (l1 l2 : List α) (h : l2 ≠ []) :
    (l1 ++ l2).getLast? = l2.getLast? := by
  induction l1 with
  | nil => rfl
  | cons a t ih =>
    rw [List.cons_append, lastOfCons a (t ++ l2) (by simp [h]), ih]

-- ---------------------------------------------------------------------------
-- Sub-chunk loop lemmas.
-- ---------------------------------------------------------------------------

theorem subLoop_facts (env : Env) (fileSize : ℕ) :
    ∀ fuel st readPos brc,
      (∀ e ∈ (subLoop env fileSize fuel st readPos brc).evs, Ev.isRW e = true) ∧
      (subLoop env fileSize fuel st readPos brc).st.speedVal = st.speedVal ∧
      (st.sleepDur.isSome = true →
        (subLoop env fileSize fuel st readPos brc).st.sleepDur.isSome = true) ∧
      (goodB st = true → goodB (subLoop env fileSize fuel st readPos brc).st = true) ∧
      (∀ p, Ev.readEv p 0 ∈ (subLoop env fileSize fuel st readPos brc).evs →
        (subLoop env fileSize fuel st readPos brc).ex = .eofBrk ∧
        (subLoop env fileSize fuel st readPos brc).st.dataLen = some 0 ∧
        (subLoop env fileSize fuel st readPos brc).evs.getLast? = some (Ev.readEv p 0)) := by
  intro fuel
  induction fuel with
  | zero =>
    intro st r b
    simp [subLoop]
  | succ n ih =>
    intro st r b
    rcases hss : subLoop env fileSize (n + 1) st r b with ⟨evs, sst, rr, bb, ex⟩
    simp only [subLoop] at hss
    dsimp only at hss ⊢
    split at hss
    · split at hss
      · injection hss with h1 h2 h3 h4 h5
        subst h1; subst h2; subst h5
        refine ⟨by simp, rfl, fun h => h, fun h => h, ?_⟩
        simp
      · split at hss
        · injection hss with h1 h2 h3 h4 h5
          subst h1; subst h2; subst h5
          refine ⟨by simp, rfl, fun h => h, fun h => h, ?_⟩
          simp
        · split at hss
          · -- empty read: EOF break
            rename_i hlen
            injection hss with h1 h2 h3 h4 h5
            subst h1; subst h2; subst h5
            refine ⟨?_, rfl, fun h => h, ?_, ?_⟩
            · intro e he
              simp at he
              subst he
              rfl
            · intro _
              simp [goodB, hlen]
            · intro p hp
              simp at hp
              subst hp
              simp [hlen]
          · -- nonempty read followed by throttle sleep, recurse
            rename_i hlen
            injection hss with h1 h2 h3 h4 h5
            subst h1; subst h2; subst h5
            obtain ⟨ihb, ihv, ihs, ihg, ihz⟩ := ih _ _ _
            refine ⟨?_, ihv, fun _ => ihs (by simp),
              fun _ => ihg (by simp only [goodB]; split <;> rfl), ?_⟩
            · intro e he
              simp only [List.mem_cons] at he
              rcases he with he | he | he
              · subst he; rfl
              · subst he; rfl
              · exact ihb e he
            · intro p hp
              simp only [List.mem_cons] at hp
              rcases hp with hp | hp | hp
              · rw [Ev.readEv.injEq] at hp
                exact absurd hp.2.symm hlen
              · exact absurd hp (by simp)
              · obtain ⟨hx, hd, hl⟩ := ihz p hp
                have hne := List.ne_nil_of_mem hp
                refine ⟨hx, hd, ?_⟩
                rw [lastOfCons _ _ (by simp [hne]), lastOfCons _ _ hne]
                exact hl
    · injection hss with h1 h2 h3 h4 h5
      subst h1; subst h2; subst h5
      refine ⟨by simp, rfl, fun h => h, fun h => h, ?_⟩
      simp

theorem benign_of_isRW (cs : ℕ) (e : Ev) (h : Ev.isRW e = true) :
    benignB cs e = true := by
  cases e <;> simp [Ev.isRW] at h ⊢ <;> rfl

theorem benign_chunkEv (cs b : ℕ) (s : Qi)
    (h : ¬(b = cs ∧ Qi.ltB s MIN_SPEED_MB_S = true)) :
    benignB cs (Ev.chunkEv b s) = true := by
  by_cases hb : b = cs
  · subst hb
    have hlt : Qi.ltB s MIN_SPEED_MB_S = false := by
      cases hlt : Qi.ltB s MIN_SPEED_MB_S
      · rfl
      · exact absurd ⟨rfl, hlt⟩ h
    simp [benignB, hlt]
  · simp [benignB, hb]

theorem chunkIter_halt_facts (env : Env) (fileSize : ℕ) (path : String) (st : WSt)
    (readPos : ℕ) (minS : Qi) (maxW lastGui : ℚ) (evs : List Ev) (st2 : WSt) (r2 : ℕ)
    (m2 : Qi) (w2 : ℚ) (ex : OutExit)
    (h : chunkIter env fileSize path st readPos minS maxW lastGui =
      .halt evs st2 r2 m2 w2 ex) :
    (ex = .ioErr ∨ ex = .fuelOut ∨ ex = .nameErr ∨ ex = .dataBrk ∨ ex = .underspeed) ∧
    (ex ≠ .underspeed → ∀ e ∈ evs, benignB env.chunkSize e = true) ∧
    (ex = .underspeed → ∃ pre s, evs = pre ++ [Ev.chunkEv env.chunkSize s,
        Ev.verdict path false] ∧ Qi.ltB s MIN_SPEED_MB_S = true ∧
        ∀ e ∈ pre, benignB env.chunkSize e = true) ∧
    (st.speedVal.isSome = true → st2.speedVal.isSome = true) ∧
    (st.sleepDur.isSome = true → st2.sleepDur.isSome = true) ∧
    (goodB st = true → goodB st2 = true) ∧
    (∀ p, Ev.readEv p 0 ∈ evs → ex = .dataBrk ∧ evs.getLast? = some (Ev.readEv p 0)) := by
  obtain ⟨sb, sv2, ss, sg, sz⟩ := subLoop_facts env fileSize (fileSize + 1) st readPos 0
  unfold chunkIter at h
  dsimp only at h
  split at h
  · -- read raised OSError
    rename_i hex
    injection h with h1 h2 h3 h4 h5 h6
    subst h1; subst h2; subst h6
    refine ⟨Or.inl rfl, fun _ e he => benign_of_isRW _ e (sb e he), by simp, ?_, ss, sg, ?_⟩
    · intro hsv
      rw [sv2]
      exact hsv
    · intro p hp
      have := (sz p hp).1
      rw [this] at hex
      simp at hex
  · split at h
    · -- inner loop ran out of fuel (unreachable with the fuel used here)
      rename_i hex
      injection h with h1 h2 h3 h4 h5 h6
      subst h1; subst h2; subst h6
      refine ⟨Or.inr (Or.inl rfl), fun _ e he => benign_of_isRW _ e (sb e he), by simp, ?_, ss, sg, ?_⟩
      · intro hsv
        rw [sv2]
        exact hsv
      · intro p hp
        have := (sz p hp).1
        rw [this] at hex
        simp at hex
    · split at h
      · -- data unbound at line 104: NameError
        rename_i hdl
        injection h with h1 h2 h3 h4 h5 h6
        subst h1; subst h2; subst h6
        refine ⟨Or.inr (Or.inr (Or.inl rfl)), fun _ e he => benign_of_isRW _ e (sb e he), by simp, ?_, ss, sg, ?_⟩
        · intro hsv
          rw [sv2]
          exact hsv
        · intro p hp
          have := (sz p hp).2.1
          rw [this] at hdl
          simp at hdl
      · -- data empty at line 104: break out of the chunk loop
        injection h with h1 h2 h3 h4 h5 h6
        subst h1; subst h2; subst h6
        refine ⟨Or.inr (Or.inr (Or.inr (Or.inl rfl))), fun _ e he => benign_of_isRW _ e (sb e he), by simp, ?_, ss, sg, ?_⟩
        · intro hsv
          rw [sv2]
          exact hsv
        · intro p hp
          exact ⟨rfl, (sz p hp).2.2⟩
      · -- data nonempty: chunk metrics computed
        rename_i k hdl
        split at h
        · -- full chunk below the floor: BAD verdict, abort
          rename_i hfull
          injection h with h1 h2 h3 h4 h5 h6
          subst h1; subst h2; subst h6
          refine ⟨Or.inr (Or.inr (Or.inr (Or.inr rfl))), fun hne => absurd rfl hne, ?_,
            fun _ => rfl, ss, sg, ?_⟩
          · intro _
            refine ⟨(subLoop env fileSize (fileSize + 1) st readPos 0).evs, _,
              by simp [hfull.1], hfull.2, fun e he => benign_of_isRW _ e (sb e he)⟩
          · intro p hp
            rw [List.append_assoc] at hp
            rcases List.mem_append.mp hp with hp | hp
            · have := (sz p hp).2.1
              rw [this] at hdl
              simp at hdl
            · simp at hp
        · -- chunk passed the speed check
          rename_i hfull
          split at h
          · -- GUI interval elapsed: line 122 runs, then line 123 reads sleep_duration
            split at h
            · -- sleep_duration unbound: NameError before any emission
              injection h with h1 h2 h3 h4 h5 h6
              subst h1; subst h2; subst h6
              refine ⟨Or.inr (Or.inr (Or.inl rfl)), ?_, by simp, fun _ => rfl, ss, sg, ?_⟩
              · intro _ e he
                rcases List.mem_append.mp he with he | he
                · exact benign_of_isRW _ e (sb e he)
                · simp at he
                  subst he
                  exact benign_chunkEv _ _ _ hfull
              · intro p hp
                rcases List.mem_append.mp hp with hp | hp
                · have := (sz p hp).2.1
                  rw [this] at hdl
                  simp at hdl
                · simp at hp
            · exact absurd h (by simp)
          · exact absurd h (by simp)

theorem chunkIter_cont_facts (env : Env) (fileSize : ℕ) (path : String) (st : WSt)
    (readPos : ℕ) (minS : Qi) (maxW lastGui : ℚ) (evs : List Ev) (st2 : WSt) (r2 : ℕ)
    (m2 : Qi) (w2 lg2 : ℚ)
    (h : chunkIter env fileSize path st readPos minS maxW lastGui =
      .cont evs st2 r2 m2 w2 lg2) :
    (∀ e ∈ evs, benignB env.chunkSize e = true) ∧
    st2.speedVal.isSome = true ∧
    (st.sleepDur.isSome = true → st2.sleepDur.isSome = true) ∧
    (goodB st = true → st2.sleepDur.isSome = true ∧ goodB st2 = true) ∧
    (∀ p, Ev.readEv p 0 ∉ evs) ∧
    ((∀ s, Ev.minSpeed path s ∉ evs) → m2 = minS ∧ w2 = maxW) ∧
    (∀ s, Ev.minSpeed path s ∈ evs → s = m2) := by
  obtain ⟨sb, sv2, ss, sg, sz⟩ := subLoop_facts env fileSize (fileSize + 1) st readPos 0
  unfold chunkIter at h
  dsimp only at h
  split at h
  · exact absurd h (by simp)
  · split at h
    · exact absurd h (by simp)
    · split at h
      · exact absurd h (by simp)
      · exact absurd h (by simp)
      · rename_i k hdl
        have hsleep : goodB st = true →
            (subLoop env fileSize (fileSize + 1) st readPos 0).st.sleepDur.isSome = true := by
          intro hg0
          have := sg hg0
          unfold goodB at this
          rw [hdl] at this
          exact this
        split at h
        · exact absurd h (by simp)
        · rename_i hfull
          split at h
          · -- GUI update emitted: accumulators folded, events sent
            split at h
            · exact absurd h (by simp)
            · injection h with h1 h2 h3 h4 h5 h6
              subst h1; subst h2; subst h4; subst h5
              refine ⟨?_, by simp, ss, ?_, ?_, ?_, ?_⟩
              · intro e he
                rw [List.append_assoc] at he
                rcases List.mem_append.mp he with he | he
                · exact benign_of_isRW _ e (sb e he)
                · simp at he
                  rcases he with rfl | rfl | rfl | rfl | rfl
                  · exact benign_chunkEv _ _ _ hfull
                  · rfl
                  · rfl
                  · rfl
                  · rfl
              · intro hg0
                exact ⟨hsleep hg0, sg hg0⟩
              · intro p hp
                rw [List.append_assoc] at hp
                rcases List.mem_append.mp hp with hp | hp
                · have := (sz p hp).2.1
                  rw [this] at hdl
                  simp at hdl
                · simp at hp
              · intro hnm
                exfalso
                refine hnm (Qi.qmin minS (speedOf
                    (subLoop env fileSize (fileSize + 1) st readPos 0).brc
                    ((subLoop env fileSize (fileSize + 1) st readPos 0).st.now - st.now))) ?_
                rw [List.append_assoc]
                refine List.mem_append.mpr (Or.inr ?_)
                simp
              · intro s hs
                rw [List.append_assoc] at hs
                rcases List.mem_append.mp hs with hs | hs
                · exact Bool.noConfusion (sb _ hs)
                · simp at hs
                  exact hs
          · -- GUI interval not elapsed: nothing emitted, accumulators untouched
            injection h with h1 h2 h3 h4 h5 h6
            subst h1; subst h2; subst h4; subst h5
            refine ⟨?_, by simp, ss, ?_, ?_, fun _ => ⟨rfl, rfl⟩, ?_⟩
            · intro e he
              rcases List.mem_append.mp he with he | he
              · exact benign_of_isRW _ e (sb e he)
              · simp at he
                subst he
                exact benign_chunkEv _ _ _ hfull
            · intro hg0
              exact ⟨hsleep hg0, sg hg0⟩
            · intro p hp
              rcases List.mem_append.mp hp with hp | hp
              · have := (sz p hp).2.1
                rw [this] at hdl
                simp at hdl
              · simp at hp
            · intro s hs
              rcases List.mem_append.mp hs with hs | hs
              · exact Bool.noConfusion (sb _ hs)
              · simp at hs

theorem outerLoop_facts (env : Env) (fileSize : ℕ) (path : String) :
    ∀ fuel st readPos minS maxW lastGui,
      ((outerLoop env fileSize path fuel st readPos minS maxW lastGui).ex ≠ .underspeed →
        ∀ e ∈ (outerLoop env fileSize path fuel st readPos minS maxW lastGui).evs,
          benignB env.chunkSize e = true) ∧
      ((outerLoop env fileSize path fuel st readPos minS maxW lastGui).ex = .underspeed →
        ∃ pre s, (outerLoop env fileSize path fuel st readPos minS maxW lastGui).evs =
            pre ++ [Ev.chunkEv env.chunkSize s, Ev.verdict path false] ∧
          Qi.ltB s MIN_SPEED_MB_S = true ∧ ∀ e ∈ pre, benignB env.chunkSize e = true) ∧
      (st.speedVal.isSome = true →
        (outerLoop env fileSize path fuel st readPos minS maxW lastGui).st.speedVal.isSome =
          true) ∧
      (st.sleepDur.isSome = true →
        (outerLoop env fileSize path fuel st readPos minS maxW lastGui).st.sleepDur.isSome =
          true) ∧
      (goodB st = true →
        goodB (outerLoop env fileSize path fuel st readPos minS maxW lastGui).st = true) ∧
      (∀ p, Ev.readEv p 0 ∈
          (outerLoop env fileSize path fuel st readPos minS maxW lastGui).evs →
        (outerLoop env fileSize path fuel st readPos minS maxW lastGui).ex = .dataBrk ∧
        (outerLoop env fileSize path fuel st readPos minS maxW lastGui).evs.getLast? =
          some (Ev.readEv p 0)) ∧
      (goodB st = true → readPos < fileSize →
        (outerLoop env fileSize path fuel st readPos minS maxW lastGui).ex = .completedEx →
        (outerLoop env fileSize path fuel st readPos minS maxW
            lastGui).st.speedVal.isSome = true ∧
        (outerLoop env fileSize path fuel st readPos minS maxW
            lastGui).st.sleepDur.isSome = true) := by
  intro fuel
  induction fuel with
  | zero =>
    intro st readPos minS maxW lastGui
    refine ⟨by simp [outerLoop], by simp [outerLoop], by simp [outerLoop],
      by simp [outerLoop], by simp [outerLoop], by simp [outerLoop], ?_⟩
    intro _ _ hex
    simp [outerLoop] at hex
  | succ n ih =>
    intro st readPos minS maxW lastGui
    rcases hlo : outerLoop env fileSize path (n + 1) st readPos minS maxW lastGui
      with ⟨evs, sst, rr, mm, ww, ex⟩
    simp only [outerLoop] at hlo
    dsimp only at hlo ⊢
    split at hlo
    · split at hlo
      · -- stop observed at the between-chunks poll: break, no events
        injection hlo with h1 h2 h3 h4 h5 h6
        subst h1; subst h2; subst h6
        refine ⟨by simp, by simp, fun h => h, fun h => h, fun h => h, by simp, ?_⟩
        intro _ _ hex
        simp at hex
      · -- chunk body
        rename_i hr hstop
        split at hlo
        · -- chunkIter halted: file ends here
          rename_i evs1 st2 r2 m2 w2 ex1 heq
          injection hlo with h1 h2 h3 h4 h5 h6
          subst h1; subst h2; subst h6
          obtain ⟨hexk, hben, hund, hsv, hsl, hgb, hzr⟩ :=
            chunkIter_halt_facts env fileSize path _ readPos minS maxW lastGui
              evs1 st2 r2 m2 w2 ex1 heq
          refine ⟨hben, hund, fun h => hsv (by simpa using h), fun h => hsl (by simpa using h),
            fun h => hgb (by simpa [goodB] using h), hzr, ?_⟩
          intro _ _ hex
          rcases hexk with h | h | h | h | h <;> rw [hex] at h <;> simp at h
        · -- chunkIter continued: recurse
          rename_i evs1 st2 r2 m2 w2 lg2 heq
          injection hlo with h1 h2 h3 h4 h5 h6
          subst h1; subst h2; subst h6
          obtain ⟨cben, csv, csl, cgb, czr, cmin, cms⟩ :=
            chunkIter_cont_facts env fileSize path _ readPos minS maxW lastGui
              evs1 st2 r2 m2 w2 lg2 heq
          obtain ⟨i1, i2, i3, i4, i5, i6, i8⟩ := ih st2 r2 m2 w2 lg2
          refine ⟨?_, ?_, ?_, ?_, ?_, ?_, ?_⟩
          · intro hne e he
            rcases List.mem_append.mp he with he | he
            · exact cben e he
            · exact i1 hne e he
          · intro hex
            obtain ⟨pre, s, hpre, hlt, hbp⟩ := i2 hex
            refine ⟨evs1 ++ pre, s, ?_, hlt, ?_⟩
            · rw [hpre, ← List.append_assoc]
            · intro e he
              rcases List.mem_append.mp he with he | he
              · exact cben e he
              · exact hbp e he
          · intro _
            exact i3 csv
          · intro h
            exact i4 (csl (by simpa using h))
          · intro h
            exact i5 (cgb (by simpa [goodB] using h)).2
          · intro p hp
            rcases List.mem_append.mp hp with hp | hp
            · exact absurd hp (czr p)
            · obtain ⟨hx, hl⟩ := i6 p hp
              refine ⟨hx, ?_⟩
              rw [lastOfAppend _ _ (List.ne_nil_of_mem hp)]
              exact hl
          · intro hg _ hex
            have hg2 := cgb (by simpa [goodB] using hg)
            exact ⟨i3 csv, i4 hg2.1⟩
    · -- while-condition false on entry: Python while/else sets completed
      injection hlo with h1 h2 h3 h4 h5 h6
      subst h1; subst h2; subst h6
      rename_i hr
      refine ⟨by simp, by simp, fun h => h, fun h => h, fun h => h, by simp, ?_⟩
      intro _ hlt _
      exact absurd hlt hr

theorem slow_not_benign (cs : ℕ) (s : Qi) (h : Qi.ltB s MIN_SPEED_MB_S = true) :
    benignB cs (Ev.chunkEv cs s) = false := by
  simp [benignB, h]

theorem processFile_facts (env : Env) (fuel : ℕ) (t : Task) (st : WSt) :
    ((processFile env fuel t st).ex ≠ .underspeed →
      ∀ s, Ev.chunkEv env.chunkSize s ∈ (processFile env fuel t st).events →
        Qi.ltB s MIN_SPEED_MB_S = false) ∧
    ((processFile env fuel t st).ex ≠ .underspeed →
      Ev.verdict t.path false ∉ (processFile env fuel t st).events) ∧
    ((processFile env fuel t st).ex = .underspeed →
      (processFile env fuel t st).err = none ∧
      ∃ pre s, (processFile env fuel t st).events =
          pre ++ [Ev.chunkEv env.chunkSize s, Ev.verdict t.path false] ∧
        Qi.ltB s MIN_SPEED_MB_S = true ∧ ∀ e ∈ pre, benignB env.chunkSize e = true) ∧
    ((processFile env fuel t st).ex = .stopEx ∨ (processFile env fuel t st).ex = .dataBrk →
      (∀ q b, Ev.verdict q b ∉ (processFile env fuel t st).events) ∧
      (processFile env fuel t st).err = none) ∧
    (∀ p, Ev.readEv p 0 ∈ (processFile env fuel t st).events →
      (processFile env fuel t st).ex = .dataBrk ∧ (processFile env fuel t st).err = none ∧
      (processFile env fuel t st).events.getLast? = some (Ev.readEv p 0) ∧
      ∀ q b, Ev.verdict q b ∉ (processFile env fuel t st).events) ∧
    (∀ n, t.statSize = some n → 0 < n → t.start < n → goodB st = true →
      (processFile env fuel t st).ex = .completedEx →
      (processFile env fuel t st).err = none ∧
      ∃ pre fsv fm fw, (processFile env fuel t st).events =
          pre ++ [Ev.progress t.path 100, Ev.curSpeed t.path fsv, Ev.minSpeed t.path fm,
            Ev.maxWait t.path fw, Ev.verdict t.path true] ∧
        ∀ q b, Ev.verdict q b ∉ pre) := by
  rcases hpf : processFile env fuel t st with ⟨evts, err, sst, ex, mS, mW⟩
  simp only [processFile] at hpf
  dsimp only at hpf ⊢
  split at hpf
  · -- stat raised
    injection hpf with h1 h2 h3 h4 h5 h6
    subst h1; subst h2; subst h4
    refine ⟨by simp, by simp, by simp, by simp, by simp, ?_⟩
    intro n hn _ _ _ hex
    simp at hex
  · rename_i fileSize hstat
    split at hpf
    · -- zero-length file: verdict OK, progress 100, nothing else
      injection hpf with h1 h2 h3 h4 h5 h6
      subst h1; subst h2; subst h4
      rename_i hzero
      refine ⟨by simp, by simp, by simp, by simp, by simp, ?_⟩
      intro n hn hpos _ _ _
      rw [hstat] at hn
      injection hn with hn
      rw [← hn] at hpos
      exact absurd hzero (by omega)
    · split at hpf
      · -- the file was opened and the outer loop ran
        rename_i hzero hopen
        obtain ⟨f1, f2, f3, f4, f5, f6, f7⟩ :=
          outerLoop_facts env fileSize t.path fuel st t.start .inf 0 st.now
        split at hpf
        · -- loop completed: the final-update block of lines 137-149 runs
          rename_i hex
          split at hpf
          · -- speed_val unbound: NameError at line 141
            rename_i hsv
            injection hpf with h1 h2 h3 h4 h5 h6
            subst h1; subst h2; subst h4
            refine ⟨?_, ?_, by simp, by simp, ?_, ?_⟩
            · intro _ s hs
              have hb := f1 (by rw [hex]; simp) _ hs
              cases hlt : Qi.ltB s MIN_SPEED_MB_S
              · rfl
              · rw [slow_not_benign env.chunkSize s hlt] at hb
                exact Bool.noConfusion hb
            · intro _ hmem
              have hb := f1 (by rw [hex]; simp) _ hmem
              simp [benignB] at hb
            · intro p hp
              have := (f6 p hp).1
              rw [hex] at this
              exact absurd this (by simp)
            · intro n hn hpos hstart hgood _
              rw [hstat] at hn
              injection hn with hn
              subst hn
              have := (f7 hgood hstart hex).1
              rw [hsv] at this
              exact absurd this (by simp)
          · rename_i fsv hsv
            split at hpf
            · -- sleep_duration unbound: NameError at line 143
              rename_i hsd
              injection hpf with h1 h2 h3 h4 h5 h6
              subst h1; subst h2; subst h4
              refine ⟨?_, ?_, by simp, by simp, ?_, ?_⟩
              · intro _ s hs
                have hb := f1 (by rw [hex]; simp) _ hs
                cases hlt : Qi.ltB s MIN_SPEED_MB_S
                · rfl
                · rw [slow_not_benign env.chunkSize s hlt] at hb
                  exact Bool.noConfusion hb
              · intro _ hmem
                have hb := f1 (by rw [hex]; simp) _ hmem
                simp [benignB] at hb
              · intro p hp
                have := (f6 p hp).1
                rw [hex] at this
                exact absurd this (by simp)
              · intro n hn hpos hstart hgood _
                rw [hstat] at hn
                injection hn with hn
                subst hn
                have := (f7 hgood hstart hex).2
                rw [hsd] at this
                exact absurd this (by simp)
            · -- final events emitted, verdict OK
              rename_i sd hsd
              injection hpf with h1 h2 h3 h4 h5 h6
              subst h1; subst h2; subst h4
              have hben := f1 (by rw [hex]; simp)
              refine ⟨?_, ?_, by simp, by simp, ?_, ?_⟩
              · intro _ s hs
                rcases List.mem_append.mp hs with hs | hs
                · have hb := hben _ hs
                  cases hlt : Qi.ltB s MIN_SPEED_MB_S
                  · rfl
                  · rw [slow_not_benign env.chunkSize s hlt] at hb
                    exact Bool.noConfusion hb
                · simp at hs
              · intro _ hmem
                rcases List.mem_append.mp hmem with hmem | hmem
                · have hb := hben _ hmem
                  simp [benignB] at hb
                · simp at hmem
              · intro p hp
                rcases List.mem_append.mp hp with hp | hp
                · have := (f6 p hp).1
                  rw [hex] at this
                  exact absurd this (by simp)
                · simp at hp
              · intro n hn hpos hstart hgood _
                refine ⟨rfl, (outerLoop env fileSize t.path fuel st t.start .inf 0
                  st.now).evs, fsv, Qi.qmin (outerLoop env fileSize t.path fuel st t.start
                  .inf 0 st.now).minS fsv, max (outerLoop env fileSize t.path fuel st
                  t.start .inf 0 st.now).maxW sd, rfl, ?_⟩
                intro q b hmem
                have hb := hben _ hmem
                simp [benignB] at hb
        · -- NameError escaped from inside the loop (line 104 or line 123)
          rename_i hex
          injection hpf with h1 h2 h3 h4 h5 h6
          subst h1; subst h2; subst h4
          refine ⟨?_, ?_, by simp, by simp, ?_, ?_⟩
          · intro _ s hs
            have hb := f1 (by rw [hex]; simp) _ hs
            cases hlt : Qi.ltB s MIN_SPEED_MB_S
            · rfl
            · rw [slow_not_benign env.chunkSize s hlt] at hb
              exact Bool.noConfusion hb
          · intro _ hmem
            have hb := f1 (by rw [hex]; simp) _ hmem
            simp [benignB] at hb
          · intro p hp
            have := (f6 p hp).1
            rw [hex] at this
            exact absurd this (by simp)
          · intro n hn hpos hstart hgood hcex
            simp at hcex
        · -- OSError escaped from a read
          rename_i hex
          injection hpf with h1 h2 h3 h4 h5 h6
          subst h1; subst h2; subst h4
          refine ⟨?_, ?_, by simp, by simp, ?_, ?_⟩
          · intro _ s hs
            have hb := f1 (by rw [hex]; simp) _ hs
            cases hlt : Qi.ltB s MIN_SPEED_MB_S
            · rfl
            · rw [slow_not_benign env.chunkSize s hlt] at hb
              exact Bool.noConfusion hb
          · intro _ hmem
            have hb := f1 (by rw [hex]; simp) _ hmem
            simp [benignB] at hb
          · intro p hp
            have := (f6 p hp).1
            rw [hex] at this
            exact absurd this (by simp)
          · intro n hn hpos hstart hgood hcex
            simp at hcex
        · -- stop break, empty-data break, under-speed abort, or fuel exhaustion
          rename_i hne1 hne2 hne3
          injection hpf with h1 h2 h3 h4 h5 h6
          subst h1; subst h2; subst h4
          refine ⟨?_, ?_, ?_, ?_, ?_, ?_⟩
          · intro hnu s hs
            have hb := f1 hnu _ hs
            cases hlt : Qi.ltB s MIN_SPEED_MB_S
            · rfl
            · rw [slow_not_benign env.chunkSize s hlt] at hb
              exact Bool.noConfusion hb
          · intro hnu hmem
            have hb := f1 hnu _ hmem
            simp [benignB] at hb
          · intro hex
            exact ⟨rfl, f2 hex⟩
          · intro hex
            have hnu : (outerLoop env fileSize t.path fuel st t.start .inf 0
                st.now).ex ≠ .underspeed := by
              rcases hex with hex | hex <;> rw [hex] <;> simp
            refine ⟨?_, rfl⟩
            intro q b hmem
            have hb := f1 hnu _ hmem
            simp [benignB] at hb
          · intro p hp
            obtain ⟨hx, hl⟩ := f6 p hp
            refine ⟨hx, rfl, hl, ?_⟩
            intro q b hmem
            have hb := f1 (by rw [hx]; simp) _ hmem
            simp [benignB] at hb
          · intro n hn hpos hstart hgood hcex
            rw [hcex] at hne1
            exact absurd rfl hne1
      · -- open raised
        injection hpf with h1 h2 h3 h4 h5 h6
        subst h1; subst h2; subst h4
        refine ⟨by simp, by simp, by simp, by simp, by simp, ?_⟩
        intro n hn _ _ _ hex
        simp at hex

/-- The locals invariant holds initially and is preserved by every file:
whenever `data` is bound nonempty, `sleep_duration` is bound.  Together with
`WSt.init`, this shows the `goodB` hypothesis of the completion theorem holds
in every reachable worker state. -/
theorem processFile_good (env : Env) (fuel : ℕ) (t : Task) (st : WSt)
    (h : goodB st = true) : goodB (processFile env fuel t st).st = true := by
  rcases hst : t.statSize with _ | n
  · simpa [processFile, hst] using h
  · by_cases hz : n = 0
    · simpa [processFile, hst, hz] using h
    · by_cases ho : t.openOk
      · obtain ⟨-, -, -, -, f5, -, -⟩ :=
          outerLoop_facts env n t.path fuel st t.start .inf 0 st.now
        have hg := f5 h
        simp only [processFile, hst, hz, if_false, ho, if_true]
        split
        · split
          · exact hg
          · split
            · exact hg
            · exact hg
        · exact hg
        · exact hg
        · exact hg
      · simpa [processFile, hst, hz, ho] using h

/-- The locals invariant is preserved across the whole run. -/
theorem runWorker_good (env : Env) (fuel : ℕ) :
    ∀ tasks st, goodB st = true → goodB (runWorker env fuel tasks st).st = true := by
  intro tasks
  induction tasks with
  | nil =>
    intro st h
    exact h
  | cons t rest ih =>
    intro st h
    simp only [runWorker]
    split
    · simpa [goodB] using h
    · exact ih _ (processFile_good env fuel t _ (by simpa [goodB] using h))

theorem runWorker_ends_finished (env : Env) (fuel : ℕ) :
    ∀ tasks st, (runWorker env fuel tasks st).events.getLast? = some Ev.finishedAll := by
  intro tasks
  induction tasks with
  | nil =>
    intro st
    rfl
  | cons t rest ih =>
    intro st
    simp only [runWorker]
    split
    · rfl
    · have hr := ih (processFile env fuel t { st with pIdx := st.pIdx + 1 }).st
      have hne : (runWorker env fuel rest
          (processFile env fuel t { st with pIdx := st.pIdx + 1 }).st).events ≠ [] := by
        intro h0
        rw [h0] at hr
        simp at hr
      dsimp only
      rw [List.append_assoc, lastOfAppend _ _ (by simp [hne])]
      rw [lastOfAppend _ _ hne]
      exact hr

theorem load_files_id (fs : String → Option ℕ) :
    ∀ files : List (String × FRec), (∀ pr ∈ files, fs pr.1 = some pr.2.size) →
      load_files fs files = files := by
  intro files
  induction files with
  | nil => intro _; rfl
  | cons hd tl ih =>
    intro hfs
    obtain ⟨p, r⟩ := hd
    have h1 : fs p = some r.size := hfs (p, r) (by simp)
    have h2 := ih fun pr hpr => hfs pr (by simp [hpr])
    simp only [load_files, h1, h2]

-- ---------------------------------------------------------------------------
-- The claims.
-- ---------------------------------------------------------------------------

/-- Claim C1: for every file read in which a full chunk (exactly
`self.chunk_size` bytes) measures a throughput strictly below the 0.1 MB/s
floor, the reader emits verdict BAD for that file and stops reading it
immediately — the BAD verdict is the very last event of the file, preceded
directly by that full chunk's metric marker; and when no full chunk is below
the floor (in particular when only end-of-file-truncated partial chunks are
slow), the under-speed check never produces a BAD verdict. -/
theorem full_chunk_underspeed_aborts (env : Env) (fuel : ℕ) (t : Task) (st : WSt) :
    ((∃ s, Ev.chunkEv env.chunkSize s ∈ (processFile env fuel t st).events ∧
        Qi.ltB s MIN_SPEED_MB_S = true) →
      (processFile env fuel t st).ex = .underspeed ∧
      ∃ pre s, (processFile env fuel t st).events =
          pre ++ [Ev.chunkEv env.chunkSize s, Ev.verdict t.path false] ∧
        Qi.ltB s MIN_SPEED_MB_S = true ∧ ∀ e ∈ pre, benignB env.chunkSize e = true) ∧
    ((∀ s, Ev.chunkEv env.chunkSize s ∈ (processFile env fuel t st).events →
        Qi.ltB s MIN_SPEED_MB_S = false) →
      Ev.verdict t.path false ∉ (processFile env fuel t st).events) := by
  obtain ⟨p1, p2, p3, _, _, _⟩ := processFile_facts env fuel t st
  constructor
  · rintro ⟨s, hs, hlt⟩
    by_cases hex : (processFile env fuel t st).ex = .underspeed
    · exact ⟨hex, (p3 hex).2⟩
    · rw [p1 hex s hs] at hlt
      exact Bool.noConfusion hlt
  · intro hall
    by_cases hex : (processFile env fuel t st).ex = .underspeed
    · obtain ⟨-, pre, s, hevs, hlt, -⟩ := p3 hex
      have hmem : Ev.chunkEv env.chunkSize s ∈ (processFile env fuel t st).events := by
        rw [hevs]
        simp
      rw [hall s hmem] at hlt
      exact Bool.noConfusion hlt
    · exact p2 hex

section
attribute [local semireducible] Rat.mul Rat.inv Rat.add Rat.sub

set_option maxRecDepth 40000 in
/-- Witness for C1 at a concrete slow device: chunk size 4 bytes, one full
chunk delivered in 1 s (4/2^20 MB/s, below the 0.1 MB/s floor). -/
theorem full_chunk_underspeed_aborts_w :
    (processFile envA 5 tA (WSt.init 0)).ex = .underspeed ∧
    ∃ pre s, (processFile envA 5 tA (WSt.init 0)).events =
        pre ++ [Ev.chunkEv envA.chunkSize s, Ev.verdict tA.path false] ∧
      Qi.ltB s MIN_SPEED_MB_S = true ∧ ∀ e ∈ pre, benignB envA.chunkSize e = true :=
  (full_chunk_underspeed_aborts envA 5 tA (WSt.init 0)).1
    ⟨Qi.fin (mkRat 1 262144), by decide,
      by decide⟩

/-- Claim C3: when the read loop reaches end-of-file (starting strictly before
it) without an under-speed abort and without cancellation, the outcome is
verdict OK and a final burst of events carrying 100% progress plus the final
speed, minimum-speed and maximum-wait values is emitted — so at least one
event is emitted for the file even if it finished inside one rate-limit
interval — and no verdict is emitted before that final OK. -/
theorem completion_emits_final_events (env : Env) (fuel : ℕ) (t : Task) (st : WSt)
    (n : ℕ) (hn : t.statSize = some n) (hpos : 0 < n) (hstart : t.start < n)
    (hgood : goodB st = true)
    (hex : (processFile env fuel t st).ex = .completedEx) :
    (processFile env fuel t st).err = none ∧
    ∃ pre fsv fm fw, (processFile env fuel t st).events =
        pre ++ [Ev.progress t.path 100, Ev.curSpeed t.path fsv, Ev.minSpeed t.path fm,
          Ev.maxWait t.path fw, Ev.verdict t.path true] ∧
      ∀ q b, Ev.verdict q b ∉ pre :=
  (processFile_facts env fuel t st).2.2.2.2.2 n hn hpos hstart hgood hex

/-- Witness for C3: a 4-byte file on a fast device completes in one chunk,
well inside one GUI interval, and still gets its full final event burst. -/
theorem completion_emits_final_events_w :
    (processFile envB 5 tB (WSt.init 0)).err = none ∧
    ∃ pre fsv fm fw, (processFile envB 5 tB (WSt.init 0)).events =
        pre ++ [Ev.progress tB.path 100, Ev.curSpeed tB.path fsv, Ev.minSpeed tB.path fm,
          Ev.maxWait tB.path fw, Ev.verdict tB.path true] ∧
      ∀ q b, Ev.verdict q b ∉ pre :=
  completion_emits_final_events envB 5 tB (WSt.init 0) 4 rfl (by decide) (by decide)
    (by decide) (by decide)

/-- Claim C8: a zero-length file immediately yields verdict OK and progress
100, with no read call and no throttling sleep. -/
theorem zero_size_ok_no_read_no_sleep (env : Env) (fuel : ℕ) (t : Task) (st : WSt)
    (h : t.statSize = some 0) :
    (processFile env fuel t st).events =
      [Ev.verdict t.path true, Ev.progress t.path 100] ∧
    (processFile env fuel t st).err = none ∧
    (∀ p k, Ev.readEv p k ∉ (processFile env fuel t st).events) ∧
    (∀ d, Ev.sleepEv d ∉ (processFile env fuel t st).events) := by
  simp only [processFile, h]
  refine ⟨rfl, rfl, ?_, ?_⟩
  · intro p k
    simp
  · intro d
    simp

/-- Witness for C8 at a concrete zero-length file. -/
theorem zero_size_ok_no_read_no_sleep_w :
    (processFile envB 5 tG (WSt.init 0)).events =
      [Ev.verdict tG.path true, Ev.progress tG.path 100] ∧
    (processFile envB 5 tG (WSt.init 0)).err = none ∧
    (∀ p k, Ev.readEv p k ∉ (processFile envB 5 tG (WSt.init 0)).events) ∧
    (∀ d, Ev.sleepEv d ∉ (processFile envB 5 tG (WSt.init 0)).events) :=
  zero_size_ok_no_read_no_sleep envB 5 tG (WSt.init 0) rfl

/-- Claim C10: if a read returns zero bytes while the recorded byte count is
still short of the file size, the reader leaves both loops with the completion
flag unset and emits no verdict at all for the file — the zero-byte read is
the last event of the file, so neither OK nor BAD is reported and the file
stays resumable. -/
theorem zero_read_truncation_no_verdict (env : Env) (fuel : ℕ) (t : Task) (st : WSt)
    (p : ℕ) (hp : Ev.readEv p 0 ∈ (processFile env fuel t st).events) :
    (processFile env fuel t st).ex = .dataBrk ∧
    (processFile env fuel t st).err = none ∧
    (processFile env fuel t st).events.getLast? = some (Ev.readEv p 0) ∧
    ∀ q b, Ev.verdict q b ∉ (processFile env fuel t st).events :=
  (processFile_facts env fuel t st).2.2.2.2.1 p hp

/-- Witness for C10: a file recorded as 12 bytes whose device returns 4 bytes
and then nothing (the file shrank mid-scan). -/
theorem zero_read_truncation_no_verdict_w :
    (processFile envF 5 tF (WSt.init 0)).ex = .dataBrk ∧
    (processFile envF 5 tF (WSt.init 0)).err = none ∧
    (processFile envF 5 tF (WSt.init 0)).events.getLast? = some (Ev.readEv 4 0) ∧
    ∀ q b, Ev.verdict q b ∉ (processFile envF 5 tF (WSt.init 0)).events :=
  zero_read_truncation_no_verdict envF 5 tF (WSt.init 0) 4
    (by decide)

/-- Claim C6 (amended): when the reader leaves the chunk loop through a stop
poll (cancellation observed between sub-chunk reads or between chunks, after
at least one byte has been read in the run) or through the empty-data break,
it stops the current file without emitting any verdict and without raising —
the file stays unset and resumable.  The unamended claim fails when
cancellation is first observed at a sub-chunk poll before any read of the
run: the unbound `data` local then raises `NameError` at line 104 and a BAD
verdict is emitted (see the counterexample). -/
theorem cancel_observed_stops_without_verdict (env : Env) (fuel : ℕ) (t : Task)
    (st : WSt)
    (hex : (processFile env fuel t st).ex = .stopEx ∨
      (processFile env fuel t st).ex = .dataBrk) :
    (∀ q b, Ev.verdict q b ∉ (processFile env fuel t st).events) ∧
    (processFile env fuel t st).err = none :=
  (processFile_facts env fuel t st).2.2.2.1 hex

set_option maxRecDepth 40000 in
/-- Witness for the amended C6: the stop event becomes set after the first
chunk; the reader stops at the next between-chunks poll with no verdict. -/
theorem cancel_observed_stops_without_verdict_w :
    (∀ q b, Ev.verdict q b ∉ (processFile envC 5 tC2 (WSt.init 0)).events) ∧
    (processFile envC 5 tC2 (WSt.init 0)).err = none :=
  cancel_observed_stops_without_verdict envC 5 tC2 (WSt.init 0)
    (Or.inl (by decide))

set_option maxRecDepth 40000 in
/-- Counterexample to C6 as stated: the stop event becomes set between the
between-chunks poll and the very first sub-chunk poll of the run.  The
reader observes it before any `f.read` has ever assigned `data`, so line 104
raises `NameError` and the except handler emits verdict BAD — a verdict IS
emitted on cancellation. -/
theorem cancel_before_first_read_emits_bad_cex :
    (runWorker envC 5 [tC] (WSt.init 0)).events =
      [Ev.verdict "c" false, Ev.finishedAll] ∧
    (processFile envC 5 tC ⟨none, none, none, 0, 0, 1⟩).err = some PyErr.nameError :=
  by decide

/-- Claim C9 (amended): a task whose resume offset equals its nonzero size
skips the read loop entirely and runs the completion block.  If the
function-scoped `speed_val` is still unbound (no earlier file in this run
assigned it — e.g. this is the first task), line 141 raises `NameError` and
the file is reported BAD; but if an earlier file left `speed_val` and
`sleep_duration` bound, their stale values are reused and the file is
reported OK with 100% progress. -/
theorem resume_at_full_size_behavior (env : Env) (fuel : ℕ) (t : Task) (st : WSt)
    (n : ℕ) (hfuel : 0 < fuel) (hn : t.statSize = some n) (hpos : 0 < n)
    (hstart : t.start = n) (hopen : t.openOk = true) :
    (st.speedVal = none →
      (processFile env fuel t st).err = some .nameError ∧
      (processFile env fuel t st).events = []) ∧
    (∀ sv sd, st.speedVal = some sv → st.sleepDur = some sd →
      (processFile env fuel t st).err = none ∧
      (processFile env fuel t st).events =
        [Ev.progress t.path 100, Ev.curSpeed t.path sv, Ev.minSpeed t.path sv,
          Ev.maxWait t.path (max 0 sd), Ev.verdict t.path true]) := by
  obtain ⟨f, rfl⟩ : ∃ f, fuel = f + 1 := ⟨fuel - 1, by omega⟩
  have hz : ¬n = 0 := by omega
  have hlo : outerLoop env n t.path (f + 1) st t.start .inf 0 st.now =
      ⟨[], st, t.start, .inf, 0, .completedEx⟩ := by
    simp only [outerLoop]
    rw [hstart]
    simp
  constructor
  · intro hsv
    simp [processFile, hn, hz, hopen, hlo, hsv]
  · intro sv sd hsv hsd
    simp [processFile, hn, hz, hopen, hlo, hsv, hsd, Qi.qmin]

/-- Witness for the amended C9: first task of a run resumes at offset = size;
`speed_val` is unbound, so the completion block raises and the file errs. -/
theorem resume_at_full_size_behavior_w :
    (processFile envB 1 tZ (WSt.init 0)).err = some PyErr.nameError ∧
    (processFile envB 1 tZ (WSt.init 0)).events = [] :=
  (resume_at_full_size_behavior envB 1 tZ (WSt.init 0) 4 (by decide) rfl (by decide)
    rfl rfl).1 rfl

set_option maxRecDepth 40000 in
/-- Counterexample to C9 as stated: after a first file completes normally,
a second task with resume offset = size > 0 is reported OK (with stale speed
values), not BAD: the completion path's stale locals were assigned by the
previous file, so no exception occurs. -/
theorem resume_at_full_size_stale_ok_cex :
    tB2.start = 4 ∧ tB2.statSize = some 4 ∧
    Ev.verdict "b2" true ∈ (runWorker envB 5 [tB, tB2] (WSt.init 0)).events ∧
    Ev.verdict "b2" false ∉ (runWorker envB 5 [tB, tB2] (WSt.init 0)).events :=
  by decide

/-- Claim C2 (amended): the running minimum-speed and maximum-wait
accumulators are updated only when a rate-limited progress event is emitted:
on a chunk iteration that continues without emitting (the GUI interval has
not elapsed), both accumulators are returned unchanged; and when a min-speed
event is emitted, its payload is exactly the updated accumulator. -/
theorem accumulators_update_only_on_emission (env : Env) (fileSize : ℕ)
    (path : String) (st : WSt) (readPos : ℕ) (minS : Qi) (maxW lastGui : ℚ)
    (evs : List Ev) (st2 : WSt) (r2 : ℕ) (m2 : Qi) (w2 lg2 : ℚ)
    (h : chunkIter env fileSize path st readPos minS maxW lastGui =
      .cont evs st2 r2 m2 w2 lg2) :
    ((∀ s, Ev.minSpeed path s ∉ evs) → m2 = minS ∧ w2 = maxW) ∧
    (∀ s, Ev.minSpeed path s ∈ evs → s = m2) := by
  obtain ⟨-, -, -, -, -, c6, c7⟩ := chunkIter_cont_facts env fileSize path st readPos
    minS maxW lastGui evs st2 r2 m2 w2 lg2 h
  exact ⟨c6, c7⟩

set_option maxRecDepth 40000 in
/-- Witness for the amended C2: a 4-byte chunk measured at 4 MB/s inside one
GUI interval emits nothing and leaves `min_speed_val` at infinity and
`max_wait_val` at 0. -/
theorem accumulators_update_only_on_emission_w :
    ((∀ s, Ev.minSpeed "b" s ∉
        ([Ev.readEv 0 4, Ev.sleepEv 0, Ev.chunkEv 4 (Qi.fin 4)] : List Ev)) →
      Qi.inf = Qi.inf ∧ (0 : ℚ) = 0) ∧
    (∀ s, Ev.minSpeed "b" s ∈
        ([Ev.readEv 0 4, Ev.sleepEv 0, Ev.chunkEv 4 (Qi.fin 4)] : List Ev) →
      s = Qi.inf) :=
  accumulators_update_only_on_emission envB 4 "b" (WSt.init 0) 0 Qi.inf 0 0
    [Ev.readEv 0 4, Ev.sleepEv 0, Ev.chunkEv 4 (Qi.fin 4)]
    ⟨some 4, some (Qi.fin 4), some 0, mkRat 1 1048576, 1, 1⟩ 4 Qi.inf 0 0
    (by decide)

set_option maxRecDepth 40000 in
/-- Counterexample to C2 as stated: a file whose single (full, fast) chunk is
measured strictly between GUI updates ends with the internal `min_speed_val`
accumulator still at infinity, even though a chunk of speed 4 MB/s was
measured — the accumulator was not updated at that measurement, so it is not
`≤` every measured chunk speed as the claim requires. -/
theorem min_accumulator_not_updated_cex :
    Ev.chunkEv 4 (Qi.fin 4) ∈ (processFile envB 5 tB (WSt.init 0)).events ∧
    (processFile envB 5 tB (WSt.init 0)).minS = Qi.inf ∧
    Qi.leB (processFile envB 5 tB (WSt.init 0)).minS (Qi.fin 4) = false :=
  by decide

/-- Claim C7: an exception while reading one file is caught at that file's
granularity: the run emits a BAD verdict for exactly that file right after
its events, then continues with the rest of the queue, and the whole run
still terminates with the `finished_all` event — no per-file failure aborts
the run or escapes the scan thread. -/
theorem per_file_error_bad_and_continue (env : Env) (fuel : ℕ) (t : Task)
    (rest : List Task) (st : WSt)
    (hstop : env.stop st.pIdx = false)
    (herr : (processFile env fuel t { st with pIdx := st.pIdx + 1 }).err.isSome = true) :
    (runWorker env fuel (t :: rest) st).events =
      (processFile env fuel t { st with pIdx := st.pIdx + 1 }).events ++
        Ev.verdict t.path false ::
          (runWorker env fuel rest
            (processFile env fuel t { st with pIdx := st.pIdx + 1 }).st).events ∧
    (runWorker env fuel (t :: rest) st).events.getLast? = some Ev.finishedAll := by
  refine ⟨?_, runWorker_ends_finished env fuel (t :: rest) st⟩
  obtain ⟨e, he⟩ := Option.isSome_iff_exists.mp herr
  simp only [runWorker, hstop]
  rw [he]
  simp

/-- Witness for C7: the first task's `stat` raises (file vanished); the run
emits BAD for it and proceeds to read the second file to completion. -/
theorem per_file_error_bad_and_continue_w :
    (runWorker envB 5 [tE, tB] (WSt.init 0)).events =
      (processFile envB 5 tE { WSt.init 0 with pIdx := 1 }).events ++
        Ev.verdict tE.path false ::
          (runWorker envB 5 [tB]
            (processFile envB 5 tE { WSt.init 0 with pIdx := 1 }).st).events ∧
    (runWorker envB 5 [tE, tB] (WSt.init 0)).events.getLast? = some Ev.finishedAll :=
  per_file_error_bad_and_continue envB 5 tE [tB] (WSt.init 0) rfl (by decide)

set_option maxRecDepth 40000 in
/-- Validation of the binary64 resume-offset model:
`startBytes` agrees with CPython's evaluation of `int(progress/100 * size)`
at probe points covering exact cases (`50/100` and `100/100` exact in
binary64; small products exactly representable), a size just above `2 ^ 53`
that is itself rounded by the int-to-float conversion, and a large size where
the float result falls short of the exact rational floor
(`int(97/100 * 2 ^ 60) = 1118333859468641536`, exact floor
`...566`). -/
theorem startBytes_probe_values :
    startBytes 0 100 = 0 ∧ startBytes 50 0 = 0 ∧
    startBytes 50 100 = 50 ∧ startBytes 100 3276800 = 3276800 ∧
    startBytes 1 (2 ^ 53 + 1) = 90071992547409 ∧
    startBytes 97 (2 ^ 60) = 1118333859468641536 ∧
    97 * 2 ^ 60 / 100 = 1118333859468641566 := by
  decide

set_option maxRecDepth 40000 in
/-- Claim C4: pressing Start builds the work queue from exactly the catalog
records whose verdict is not `'OK'`, in stable insertion order, pairing each
path with the resume offset `int(progress/100 * size)` —
i.e. the loop of lines 402-408 equals the specification-side filter/map over
the same binary64 offset model; at the probe inputs the model reproduces
CPython's float evaluation (`int(29/100*100) = 28`,
`int(29/100*3276800) = 950271`), which differs from the exact rational floor
`29 * 3276800 / 100 = 950272`. -/
theorem start_scan_queue_spec (data : List (String × FRec)) :
    start_scan_tasks data = specQueue data ∧
    startBytes 29 100 = 28 ∧ startBytes 29 3276800 = 950271 ∧
    29 * 3276800 / 100 = 950272 := by
  refine ⟨?_, by decide, by decide, by decide⟩
  induction data with
  | nil => rfl
  | cons hd tl ih =>
    obtain ⟨p, r⟩ := hd
    by_cases hv : r.verdict = "OK"
    · simpa [start_scan_tasks, specQueue, hv] using ih
    · simpa [start_scan_tasks, specQueue, hv] using ih

/-- Claim C5: saving a snapshot and loading it back restores every field of
every record, provided each recorded path still exists with its recorded
size (load re-stats `size` from disk and skips vanished paths); the restored
speed limit equals the saved one whenever it lies in the slider's 1..100
range. -/
theorem snapshot_round_trip (folder : Option String) (speed : ℕ)
    (files : List (String × FRec)) (fs : String → Option ℕ)
    (hfs : ∀ pr ∈ files, fs pr.1 = some pr.2.size) :
    load_files fs (save_data folder speed files).filesS = files ∧
    (1 ≤ speed → speed ≤ 100 →
      sliderSet (save_data folder speed files).speed_limitS = speed) := by
  refine ⟨load_files_id fs files hfs, ?_⟩
  intro h1 h2
  simp only [save_data, sliderSet]
  omega

/-- Witness for C5 at a one-record snapshot whose file still exists with the
recorded size. -/
theorem snapshot_round_trip_w :
    load_files (fun _ => some 10)
        (save_data none 10 [("p", ⟨10, 50, 0, none, none, ""⟩)]).filesS =
      [("p", ⟨10, 50, 0, none, none, ""⟩)] ∧
    (1 ≤ 10 → 10 ≤ 100 →
      sliderSet (save_data none 10 [("p", ⟨10, 50, 0, none, none, ""⟩)]).speed_limitS
        = 10) :=
  snapshot_round_trip none 10 [("p", ⟨10, 50, 0, none, none, ""⟩)] (fun _ => some 10)
    (by
      intro pr hpr
      simp at hpr
      rw [hpr])

end

end PFIC
